import Mathlib

/-!
# Verification of the layout-optimizer core (grid / legality / score / optimizer)

Shallow embedding of the spatial engine of the repository:

* `src/client/src/lib/grid.ts`      — occupancy grid, legality checker, BFS nudge
* `src/client/src/lib/score.ts`     — multi-term score
* `src/client/src/lib/optimizer.ts` — bounded-iteration local search

Modelling conventions, used throughout:

* JavaScript `number` is idealized as `ℚ` (exact rational arithmetic);
  `Math.floor` / `Math.ceil` become `Int.floor` / `Int.ceil`.
* The `Uint8Array` bitmap of `GridIndex` becomes a total function
  `ℤ → Bool` indexed by the same row-major index `r * cols + c`; cell
  values 0/1 become `false`/`true`.
* `Math.random()` is made explicit: the optimizer takes a stream of
  per-iteration random choices (`IterChoice`).  `randInt(n)` applied to a
  raw draw `v` is modelled as `v % n` (every residue is realizable), and
  the acceptance draw `Math.random() < exp(…) * temperature` is modelled
  as an oracle boolean carried by the choice record.  All universally
  quantified theorems below therefore quantify over every possible
  behaviour of the ambient random source.
* Mutation is resolved by value passing.  Array-object identity (needed
  for the frame claims about `cloneBlocks`) is modelled separately by a
  store-instrumented copy of the optimizer in which every allocated block
  array receives a fresh index into an append-only store.
-/

/-! ## Geometry (`grid.ts`): `RectM`, `inflate`, `aabbOverlap`, `inside` -/

/-- `RectM` from `grid.ts`: axis-aligned rectangle in meters. -/
structure RectM where
  x : ℚ
  y : ℚ
  w : ℚ
  h : ℚ
  deriving DecidableEq, Repr

/-- `inflate` from `grid.ts`. -/
def inflate (rect : RectM) (m : ℚ) : RectM :=
  { x := rect.x - m, y := rect.y - m, w := rect.w + 2 * m, h := rect.h + 2 * m }

/-- `aabbOverlap` from `grid.ts`. -/
def aabbOverlap (a b : RectM) : Bool :=
  !(a.x + a.w ≤ b.x || b.x + b.w ≤ a.x || a.y + a.h ≤ b.y || b.y + b.h ≤ a.y)

/-- `inside` from `grid.ts`. -/
def inside (rect bounds : RectM) : Bool :=
  rect.x ≥ bounds.x && rect.y ≥ bounds.y &&
    rect.x + rect.w ≤ bounds.x + bounds.w && rect.y + rect.h ≤ bounds.y + bounds.h

/-! ## Occupancy grid (`grid.ts`): `GridIndex` -/

/-- The list of integers `lo, lo+1, …, hi-1` (empty when `hi ≤ lo`); the
index range of a `for (let k = lo; k < hi; k++)` loop. -/
def intRange (lo hi : ℤ) : List ℤ :=
  (List.range (hi - lo).toNat).map (fun k : ℕ => lo + (k : ℤ))

/-- `GridIndex` from `grid.ts`: occupancy index over a regular grid.
The `Uint8Array` is modelled as a total function from the row-major index
`r * cols + c` to a boolean. -/
structure GridIndex where
  cellSize : ℚ
  cols : ℤ
  rows : ℤ
  data : ℤ → Bool

/-- `GridIndex` constructor: clamps `cellSize` to at least `0.05`,
computes `cols = ⌈width / cellSize⌉`, `rows = ⌈height / cellSize⌉`,
all cells unoccupied. -/
def mkGridIndex (cellSize width height : ℚ) : GridIndex :=
  let cs := max (1 / 20) cellSize
  { cellSize := cs, cols := ⌈width / cs⌉, rows := ⌈height / cs⌉, data := fun _ => false }

/-- `GridIndex.idx`. -/
def GridIndex.idx (g : GridIndex) (c r : ℤ) : ℤ := r * g.cols + c

/-- `GridIndex.inBounds`. -/
def GridIndex.inBounds (g : GridIndex) (c r : ℤ) : Bool :=
  0 ≤ c && 0 ≤ r && c < g.cols && r < g.rows

/-- `GridIndex.set`: no-op when out of bounds, otherwise writes the value. -/
def GridIndex.set (g : GridIndex) (c r : ℤ) (value : Bool) : GridIndex :=
  if g.inBounds c r then
    { g with data := fun n => if n = g.idx c r then value else g.data n }
  else g

/-- `GridIndex.get`: out-of-bounds reads are occupied (fail-closed). -/
def GridIndex.get (g : GridIndex) (c r : ℤ) : Bool :=
  if g.inBounds c r then g.data (g.idx c r) else true

/-- Column range `[⌊x/cellSize⌋, ⌈(x+w)/cellSize⌉)` shared by `fillRect`
and `anyOccupied`. -/
def GridIndex.colRange (g : GridIndex) (rect : RectM) : List ℤ :=
  intRange ⌊rect.x / g.cellSize⌋ ⌈(rect.x + rect.w) / g.cellSize⌉

/-- Row range `[⌊y/cellSize⌋, ⌈(y+h)/cellSize⌉)` shared by `fillRect`
and `anyOccupied`. -/
def GridIndex.rowRange (g : GridIndex) (rect : RectM) : List ℤ :=
  intRange ⌊rect.y / g.cellSize⌋ ⌈(rect.y + rect.h) / g.cellSize⌉

/-- `GridIndex.fillRect`: sets every cell of the covered index range. -/
def GridIndex.fillRect (g : GridIndex) (rect : RectM) (value : Bool) : GridIndex :=
  (g.rowRange rect).foldl
    (fun g1 r => (g.colRange rect).foldl (fun g2 c => g2.set c r value) g1) g

/-- `GridIndex.anyOccupied`: true when any cell of the covered index range
is occupied. -/
def GridIndex.anyOccupied (g : GridIndex) (rect : RectM) : Bool :=
  (g.rowRange rect).any (fun r => (g.colRange rect).any (fun c => g.get c r))

/-! ## Legality checker (`grid.ts`) -/

/-- `LegalityOptions` from `grid.ts`. -/
structure LegalityOptions where
  minAisle : ℚ
  site : RectM

/-- `LegalityResult` from `grid.ts`. -/
structure LegalityResult where
  ok : Bool
  reason : Option String
  deriving DecidableEq, Repr

/-- The `for (const other of others)` loop at the end of
`checkPlacementLegality`: returns the failure on the first `other` whose
`inflate(other, 0)` overlaps the expanded candidate. -/
def checkOthers (expanded : RectM) (msg : String) : List RectM → LegalityResult
  | [] => { ok := true, reason := none }
  | other :: rest =>
    if aabbOverlap expanded (inflate other 0) then { ok := false, reason := some msg }
    else checkOthers expanded msg rest

/-- `checkPlacementLegality` from `grid.ts`. -/
def checkPlacementLegality (candidate : RectM) (others : List RectM)
    (pathMask : GridIndex) (opts : LegalityOptions) : LegalityResult :=
  if !(inside candidate opts.site) then
    { ok := false, reason := some "outside site bounds" }
  else if pathMask.anyOccupied candidate then
    { ok := false, reason := some "overlaps path" }
  else if pathMask.anyOccupied (inflate candidate opts.minAisle) then
    { ok := false, reason := some ("violates aisle clearance " ++ toString opts.minAisle ++ " m") }
  else
    checkOthers (inflate candidate opts.minAisle)
      ("too close to another block (< " ++ toString opts.minAisle ++ " m)") others

/-! ## Nearest-legal BFS (`nudgeToNearestLegal` in `grid.ts`)

The source keys the visited set by `x.toFixed(3) + ":" + y.toFixed(3)`.
All positions the search visits are `start + (i·step, j·step)` with
`step = cellSize ≥ 0.05`, so distinct positions are at least `0.05` apart
and the 3-decimal quantization is injective on them; the key is therefore
modelled as the exact coordinate pair.  The unbounded `while (q.length)`
loop is modelled with explicit fuel; the termination theorem below shows
an explicitly computed fuel always suffices. -/

/-- The four BFS neighbors of `cur` at distance `step`. -/
def nudgeNeighbors (cur : RectM) (step : ℚ) : List RectM :=
  [ { cur with x := cur.x + step }, { cur with x := cur.x - step },
    { cur with y := cur.y + step }, { cur with y := cur.y - step } ]

/-- One `while` loop of `nudgeToNearestLegal`, with fuel: pops the queue
head; skips visited keys; returns the first legal position; otherwise
pushes the radius-pruned neighbors.  `none` means the fuel ran out. -/
def nudgeFuel (start : RectM) (others : List RectM) (pathMask : GridIndex)
    (opts : LegalityOptions) (maxRadius : ℚ) :
    ℕ → List RectM → List (ℚ × ℚ) → Option RectM
  | 0, _, _ => none
  | _ + 1, [], _ => some start
  | fuel + 1, cur :: q, visited =>
    if (cur.x, cur.y) ∈ visited then
      nudgeFuel start others pathMask opts maxRadius fuel q visited
    else
      let visited' := (cur.x, cur.y) :: visited
      if (checkPlacementLegality cur others pathMask opts).ok then some cur
      else
        let pushed := (nudgeNeighbors cur pathMask.cellSize).filter
          (fun n => |n.x - start.x| + |n.y - start.y| ≤ maxRadius)
        nudgeFuel start others pathMask opts maxRadius fuel (q ++ pushed) visited'

/-- Fuel that the termination theorem proves sufficient: with
`N = ⌊max maxRadius 0 / step⌋` there are at most `(2N+1)²` reachable
lattice positions, and every loop iteration either consumes a queue entry
of an already-visited key or visits a fresh one. -/
def nudgeFuelBound (pathMask : GridIndex) (maxRadius : ℚ) : ℕ :=
  let n : ℕ := (⌊max maxRadius 0 / pathMask.cellSize⌋).toNat
  5 * (2 * n + 1) ^ 2 + 2

/-- `nudgeToNearestLegal` from `grid.ts` (`maxRadius` defaults to 10 at
the call sites; here it is explicit).  The `getD start` branch is dead by
the termination theorem. -/
def nudgeToNearestLegal (start : RectM) (others : List RectM) (pathMask : GridIndex)
    (opts : LegalityOptions) (maxRadius : ℚ) : RectM :=
  (nudgeFuel start others pathMask opts maxRadius
    (nudgeFuelBound pathMask maxRadius) [start] []).getD start

/-! ## Score engine (`score.ts`) -/

/-- `Block` from `types.ts` as used by the core: id, category key,
geometry, and an optional metadata map (modelled as an association list;
only its value matters to the core, which never writes it). -/
structure Block where
  id : String
  key : String
  x : ℚ
  y : ℚ
  w : ℚ
  h : ℚ
  meta : Option (List (String × ℚ))
  deriving DecidableEq, Repr

/-- The rectangle `{x: b.x, y: b.y, w: b.w, h: b.h}` of a block. -/
def blockRect (b : Block) : RectM := { x := b.x, y := b.y, w := b.w, h := b.h }

/-- `ScoreWeights` from `score.ts`. -/
structure ScoreWeights where
  lambdaPath : ℚ
  lambdaClear : ℚ
  lambdaAdj : ℚ

/-- `DEFAULT_WEIGHTS` from `score.ts`. -/
def DEFAULT_WEIGHTS : ScoreWeights :=
  { lambdaPath := 1000000, lambdaClear := 500000, lambdaAdj := 1000 }

/-- `ScoreBreakdown` from `score.ts`; the three violation counters are
natural numbers, `adjacencyHits` and `total` are rationals. -/
structure ScoreBreakdown where
  mhc : ℚ
  overlapWithPath : ℕ
  clearanceViolations : ℕ
  adjacencyHits : ℚ
  total : ℚ
  deriving DecidableEq, Repr

/-- `ScoreContext` from `score.ts`.  `flows` is the nested sparse object
`fromId → toId → rate`; `adjacency` maps a `"a-b"` key to a weight;
`weights` is the per-field partial override of `DEFAULT_WEIGHTS`. -/
structure ScoreContext where
  cellSize : ℚ
  minAisle : ℚ
  site : RectM
  pathMask : GridIndex
  flows : List (String × List (String × ℚ))
  adjacency : List (String × ℚ)
  weights : Option ℚ × Option ℚ × Option ℚ

/-- The effective weights `{...DEFAULT_WEIGHTS, ...(ctx.weights || {})}`. -/
def effectiveWeights (ctx : ScoreContext) : ScoreWeights :=
  { lambdaPath := ctx.weights.1.getD DEFAULT_WEIGHTS.lambdaPath
    lambdaClear := ctx.weights.2.1.getD DEFAULT_WEIGHTS.lambdaClear
    lambdaAdj := ctx.weights.2.2.getD DEFAULT_WEIGHTS.lambdaAdj }

/-- The `idToBlock` lookup of `scoreLayout`: built by `for (const b of
blocks) idToBlock[b.id] = b`, so the last block with a given id wins. -/
def idToBlock (blocks : List Block) (i : String) : Option Block :=
  blocks.foldl (fun acc b => if b.id = i then some b else acc) none

/-- `manhattanDistance` from `score.ts` (between block centers). -/
def manhattanDistance (a b : Block) : ℚ :=
  |a.x + a.w / 2 - (b.x + b.w / 2)| + |a.y + a.h / 2 - (b.y + b.h / 2)|

/-- The material-handling-cost double loop of `scoreLayout`. -/
def mhcOf (blocks : List Block) (flows : List (String × List (String × ℚ))) : ℚ :=
  flows.foldl (fun acc row =>
    row.2.foldl (fun acc2 entry =>
      if row.1 = entry.1 then acc2
      else
        match idToBlock blocks row.1, idToBlock blocks entry.1 with
        | some bi, some bj => acc2 + entry.2 * manhattanDistance bi bj
        | _, _ => acc2) acc) 0

/-- The clearance-violation double loop of `scoreLayout`: for each block
in order, one count if its `minAisle`-inflated rect touches the path
mask, plus one count for each LATER block overlapped by the inflated rect
(the later block is NOT inflated: `overlapX`/`overlapY` compare the
inflated `a` against the raw `b`). -/
def clearViolOf (pathMask : GridIndex) (minAisle : ℚ) : List Block → ℕ
  | [] => 0
  | a :: rest =>
    (if pathMask.anyOccupied (inflate (blockRect a) minAisle) then 1 else 0) +
      rest.countP (fun b => aabbOverlap (inflate (blockRect a) minAisle) (blockRect b)) +
      clearViolOf pathMask minAisle rest

/-- The adjacency loop of `scoreLayout`: for each `"ka-kb"` entry, the
FIRST block of each category; `near` when the center Manhattan distance
is at most `3 · max(wA, hA, wB, hB)`. -/
def adjacencyOf (blocks : List Block) (adjacency : List (String × ℚ)) : ℚ :=
  adjacency.foldl (fun acc entry =>
    let parts := entry.1.splitOn "-"
    let ka := parts.getD 0 ""
    match parts.get? 1 with
    | none => acc
    | some kb =>
      match blocks.find? (fun b => b.key = ka), blocks.find? (fun b => b.key = kb) with
      | some a, some b =>
        let dist := manhattanDistance a b
        let near := dist ≤ max (max a.w a.h) (max b.w b.h) * 3
        acc + (if near then 1 else 0) * entry.2
      | _, _ => acc) 0

/-- `scoreLayout` from `score.ts`. -/
def scoreLayout (blocks : List Block) (ctx : ScoreContext) : ScoreBreakdown :=
  let W := effectiveWeights ctx
  let mhc := mhcOf blocks ctx.flows
  let overlap := blocks.countP (fun b => ctx.pathMask.anyOccupied (blockRect b))
  let clearViol := clearViolOf ctx.pathMask ctx.minAisle blocks
  let adjHits := adjacencyOf blocks ctx.adjacency
  { mhc := mhc, overlapWithPath := overlap, clearanceViolations := clearViol
    adjacencyHits := adjHits
    total := mhc + W.lambdaPath * overlap + W.lambdaClear * clearViol - W.lambdaAdj * adjHits }

/-! ## Optimizer (`optimizer.ts`) -/

/-- `Plan` from `types.ts` as the optimizer uses it: the spread
`{...initial, blocks: …}` keeps every other field, modelled here by `id`,
`score` and `ruleFindings`. -/
structure Plan where
  id : String
  blocks : List Block
  score : ℚ
  ruleFindings : List String
  deriving DecidableEq, Repr

/-- `OptimizeOptions` from `optimizer.ts` (`?` fields as `Option`). -/
structure OptimizeOptions where
  iterations : Option ℕ
  grid : Option ℚ
  cooling : Option ℚ

/-- `OptimizeResult` from `optimizer.ts`; a history entry is
`{plan, score, move}`. -/
structure OptimizeResult where
  bestPlan : Plan
  bestScore : ℚ
  history : List (Plan × ℚ × String)
  deriving DecidableEq, Repr

/-- The random draws one optimizer iteration can consume: `g` selects the
move generator (`randInt(gens.length)`), `a` and `b` are the raw draws
used inside the generator, and `acc` is the oracle outcome of the
acceptance comparison `Math.random() < exp(…) * temperature`. -/
structure IterChoice where
  g : ℕ
  a : ℕ
  b : ℕ
  acc : Bool

/-- A dummy block for total list indexing; every access below is guarded
by the same length checks as the source. -/
def dummyBlock : Block :=
  { id := "", key := "", x := 0, y := 0, w := 0, h := 0, meta := none }

/-- `cloneBlocks` from `optimizer.ts`: per-block shallow copy with a
copied metadata map (value-preserving). -/
def cloneBlocks (blocks : List Block) : List Block :=
  blocks.map (fun b => { b with meta := b.meta.map (fun m => m) })

/-- `genSwap`: exchanges the positions of two distinct random blocks. -/
def genSwap (c : IterChoice) (blocks : List Block) : List Block × String :=
  if blocks.length < 2 then (blocks, "noop")
  else
    let i := c.a % blocks.length
    let j0 := c.b % blocks.length
    let j := if j0 = i then (j0 + 1) % blocks.length else j0
    let nb := cloneBlocks blocks
    let bi := nb.getD i dummyBlock
    let bj := nb.getD j dummyBlock
    let nb := (nb.set i { bi with x := bj.x, y := bj.y }).set j { bj with x := bi.x, y := bi.y }
    (nb, "swap(" ++ toString i ++ "," ++ toString j ++ ")")

/-- The direction table of `genShift`. -/
def shiftDirs : List (ℚ × ℚ) := [(1, 0), (-1, 0), (0, 1), (0, -1)]

/-- `genShift`: moves one random block by `grid` in a random cardinal
direction, clamping coordinates at 0. -/
def genShift (grid : ℚ) (c : IterChoice) (blocks : List Block) : List Block × String :=
  if blocks.length = 0 then (blocks, "noop")
  else
    let i := c.a % blocks.length
    let d := shiftDirs.getD (c.b % shiftDirs.length) (0, 0)
    let nb := cloneBlocks blocks
    let bi := nb.getD i dummyBlock
    let nb := nb.set i { bi with x := max 0 (bi.x + d.1 * grid), y := max 0 (bi.y + d.2 * grid) }
    (nb, "shift(" ++ toString i ++ "," ++ toString d.1 ++ "," ++ toString d.2 ++ ")")

/-- `genRotate`: swaps `w` and `h` of one random block in place. -/
def genRotate (c : IterChoice) (blocks : List Block) : List Block × String :=
  if blocks.length = 0 then (blocks, "noop")
  else
    let i := c.a % blocks.length
    let nb := cloneBlocks blocks
    let bi := nb.getD i dummyBlock
    let nb := nb.set i { bi with w := bi.h, h := bi.w }
    (nb, "rotate(" ++ toString i ++ ")")

/-- `genPullTogether`: recenters the adjacent pair `(i, i+1)` around
their midpoint. -/
def genPullTogether (c : IterChoice) (blocks : List Block) : List Block × String :=
  if blocks.length < 2 then (blocks, "noop")
  else
    let i := c.a % (blocks.length - 1)
    let j := i + 1
    let nb := cloneBlocks blocks
    let bi := nb.getD i dummyBlock
    let bj := nb.getD j dummyBlock
    let cx := (bi.x + bj.x) / 2
    let cy := (bi.y + bj.y) / 2
    let nb := (nb.set i { bi with x := cx - bi.w, y := cy }).set j
      { bj with x := cx + 1 / 10, y := cy }
    (nb, "pullTogether(" ++ toString i ++ "," ++ toString j ++ ")")

/-- `gens[randInt(gens.length)]` applied to the current best blocks:
the four generators in source order. -/
def applyGen (grid : ℚ) (c : IterChoice) (blocks : List Block) : List Block × String :=
  match c.g % 4 with
  | 0 => genSwap c blocks
  | 1 => genShift grid c blocks
  | 2 => genRotate c blocks
  | _ => genPullTogether c blocks

/-- The first loop of `isPlanLegal`: every block inside the site, not on
the path mask, and with its `minAisle`-inflated rect off the path mask. -/
def blocksSiteAndPathOk (blocks : List Block) (ctx : ScoreContext) : Bool :=
  blocks.all (fun b =>
    inside (blockRect b) ctx.site &&
    !(ctx.pathMask.anyOccupied (blockRect b)) &&
    !(ctx.pathMask.anyOccupied (inflate (blockRect b) ctx.minAisle)))

/-- The second loop of `isPlanLegal`: for every pair `i < j`, the
`minAisle`-inflated `i`-th rect must not overlap the raw `j`-th rect. -/
def blocksPairwiseOk (minAisle : ℚ) : List Block → Bool
  | [] => true
  | a :: rest =>
    rest.all (fun b => !(aabbOverlap (inflate (blockRect a) minAisle) (blockRect b))) &&
      blocksPairwiseOk minAisle rest

/-- `isPlanLegal` from `optimizer.ts`. -/
def isPlanLegal (blocks : List Block) (ctx : ScoreContext) : Bool :=
  blocksSiteAndPathOk blocks ctx && blocksPairwiseOk ctx.minAisle blocks

/-- The optimizer's loop state.  `legalCount` is a ghost counter of the
iterations whose candidate passed the legality gate; it instruments the
embedding (the source has no such variable) and is read only by the
temperature theorems. -/
structure OptState where
  bestBlocks : List Block
  best : ScoreBreakdown
  temperature : ℚ
  history : List (Plan × ℚ × String)
  legalCount : ℕ

/-- One iteration of the `for (let iter = 0; …)` loop of
`optimizeHeuristic`.  An illegal candidate hits `continue`, which skips
the `temperature *= cooling` line. -/
def optStep (initial : Plan) (ctx : ScoreContext) (grid cooling : ℚ)
    (st : OptState) (iter : ℕ) (c : IterChoice) : OptState :=
  let gen := applyGen grid c st.bestBlocks
  if !(isPlanLegal gen.1 ctx) then st
  else
    let s := scoreLayout gen.1 ctx
    let accept := (s.total < st.best.total) || c.acc
    let st' :=
      if accept then
        { st with
          bestBlocks := gen.1
          best := s
          history := st.history ++
            [({ initial with id := initial.id ++ "-iter-" ++ toString iter, blocks := gen.1 },
              s.total, gen.2)] }
      else st
    { st' with temperature := st'.temperature * cooling, legalCount := st'.legalCount + 1 }

/-- The optimizer loop: runs iterations `i, i+1, …, i+n-1`, reading the
choice stream at the iteration index. -/
def optLoop (initial : Plan) (ctx : ScoreContext) (grid cooling : ℚ)
    (stream : ℕ → IterChoice) : ℕ → ℕ → OptState → OptState
  | _, 0, st => st
  | i, n + 1, st =>
    optLoop initial ctx grid cooling stream (i + 1) n (optStep initial ctx grid cooling st i (stream i))

/-- Effective iteration count `opts.iterations ?? 40`. -/
def iterationsOf (opts : OptimizeOptions) : ℕ := opts.iterations.getD 40

/-- Effective snap grid `opts.grid ?? max(0.25, ctx.cellSize)`. -/
def gridOf (ctx : ScoreContext) (opts : OptimizeOptions) : ℚ :=
  opts.grid.getD (max (1 / 4) ctx.cellSize)

/-- Effective cooling factor `opts.cooling ?? 0.95`. -/
def coolingOf (opts : OptimizeOptions) : ℚ := opts.cooling.getD (19 / 20)

/-- The full internal state of `optimizeHeuristic` after the loop. -/
def optimizeFinalState (stream : ℕ → IterChoice) (initial : Plan) (ctx : ScoreContext)
    (opts : OptimizeOptions) : OptState :=
  let bb := cloneBlocks initial.blocks
  optLoop initial ctx (gridOf ctx opts) (coolingOf opts) stream 0 (iterationsOf opts)
    { bestBlocks := bb, best := scoreLayout bb ctx, temperature := 1, history := [], legalCount := 0 }

/-- `optimizeHeuristic` from `optimizer.ts` (the `async` wrapper is
irrelevant: the body is synchronous). -/
def optimizeHeuristic (stream : ℕ → IterChoice) (initial : Plan) (ctx : ScoreContext)
    (opts : OptimizeOptions) : OptimizeResult :=
  let st := optimizeFinalState stream initial ctx opts
  { bestPlan := { initial with blocks := st.bestBlocks }
    bestScore := st.best.total
    history := st.history }

/-! ## Store-instrumented optimizer (array identity)

To settle the frame claims, array-object identity is made explicit: a
`Store` is the append-only list of every block array allocated during a
run, and an array is referred to by its index.  Index 0 is the caller's
array `initial.blocks`.  `cloneBlocks` allocates a fresh array, and each
move generator writes only into the array it just cloned, so a
clone-then-mutate sequence appends the final mutated value; the `noop`
branches return the INPUT array index unchanged (the source returns the
same array object there).  Nothing ever writes to an existing store
entry, mirroring that the source writes only to freshly allocated
arrays. -/

/-- An append-only store of block arrays, addressed by index. -/
abbrev Store := List (List Block)

/-- Reading an array from the store. -/
def storeRead (σ : Store) (i : ℕ) : List Block := List.getD σ i []

/-- `cloneBlocks` with identity: appends the copied array, returning the
new store and the fresh index. -/
def storeAlloc (σ : Store) (blocks : List Block) : Store × ℕ :=
  (σ ++ [blocks], σ.length)

/-- The selected move generator, store-instrumented: `noop` branches keep
the input index (aliasing, as in the source); mutating branches allocate
the clone-then-mutated array. -/
def allocGen (grid : ℚ) (c : IterChoice) (σ : Store) (inId : ℕ) : Store × ℕ × String :=
  if c.g % 4 = 0 then
    if (storeRead σ inId).length < 2 then (σ, inId, "noop")
    else
      let r := genSwap c (storeRead σ inId)
      let a := storeAlloc σ r.1
      (a.1, a.2, r.2)
  else if c.g % 4 = 1 then
    if (storeRead σ inId).length = 0 then (σ, inId, "noop")
    else
      let r := genShift grid c (storeRead σ inId)
      let a := storeAlloc σ r.1
      (a.1, a.2, r.2)
  else if c.g % 4 = 2 then
    if (storeRead σ inId).length = 0 then (σ, inId, "noop")
    else
      let r := genRotate c (storeRead σ inId)
      let a := storeAlloc σ r.1
      (a.1, a.2, r.2)
  else
    if (storeRead σ inId).length < 2 then (σ, inId, "noop")
    else
      let r := genPullTogether c (storeRead σ inId)
      let a := storeAlloc σ r.1
      (a.1, a.2, r.2)

/-- Store-instrumented optimizer state; `history` records the indices of
the accepted candidate arrays. -/
structure StoreState where
  store : Store
  bestIdx : ℕ
  best : ScoreBreakdown
  temperature : ℚ
  history : List ℕ

/-- One optimizer iteration over the store model. -/
def storeStep (ctx : ScoreContext) (grid cooling : ℚ) (st : StoreState)
    (c : IterChoice) : StoreState :=
  let r := allocGen grid c st.store st.bestIdx
  let candidate := storeRead r.1 r.2.1
  if !(isPlanLegal candidate ctx) then { st with store := r.1 }
  else
    let s := scoreLayout candidate ctx
    let accept := (s.total < st.best.total) || c.acc
    let st' :=
      if accept then
        { st with store := r.1, bestIdx := r.2.1, best := s, history := st.history ++ [r.2.1] }
      else { st with store := r.1 }
    { st' with temperature := st'.temperature * cooling }

/-- The store-instrumented loop. -/
def storeLoop (ctx : ScoreContext) (grid cooling : ℚ) (stream : ℕ → IterChoice) :
    ℕ → ℕ → StoreState → StoreState
  | _, 0, st => st
  | i, n + 1, st =>
    storeLoop ctx grid cooling stream (i + 1) n (storeStep ctx grid cooling st (stream i))

/-- `optimizeHeuristic` over the store model: the caller's array is store
entry 0; `bestBlocks` starts as a fresh clone (entry 1). -/
def optimizeStoreFinal (stream : ℕ → IterChoice) (initial : Plan) (ctx : ScoreContext)
    (opts : OptimizeOptions) : StoreState :=
  let a := storeAlloc [initial.blocks] (cloneBlocks initial.blocks)
  storeLoop ctx (gridOf ctx opts) (coolingOf opts) stream 0 (iterationsOf opts)
    { store := a.1, bestIdx := a.2, best := scoreLayout (cloneBlocks initial.blocks) ctx
      temperature := 1, history := [] }

/-! ## Infrastructure for the BFS termination proof (C8)

Every position the BFS can reach is `start + (i·step, j·step)` for
integers `i, j`; positions pushed onto the queue additionally satisfy the
Manhattan-radius pruning.  `keyList` enumerates the visited-set keys of
all lattice positions with `|i|, |j| ≤ N`; `unvisitedCount` counts those
not yet visited, giving the decreasing measure. -/

/-- The lattice position `start + (i·step, j·step)` (same `w`, `h`). -/
def shiftRect (start : RectM) (step : ℚ) (i j : ℤ) : RectM :=
  { start with x := start.x + (i : ℚ) * step, y := start.y + (j : ℚ) * step }

/-- Keys of all lattice positions with `|i|, |j| ≤ N`. -/
def keyList (start : RectM) (step : ℚ) (N : ℕ) : List (ℚ × ℚ) :=
  (intRange (-(N : ℤ)) ((N : ℤ) + 1)).flatMap
    (fun i : ℤ => (intRange (-(N : ℤ)) ((N : ℤ) + 1)).map
      (fun j : ℤ => (start.x + (i : ℚ) * step, start.y + (j : ℚ) * step)))

/-- The number of lattice keys not yet in the visited set. -/
def unvisitedCount (start : RectM) (step : ℚ) (N : ℕ) (visited : List (ℚ × ℚ)) : ℕ :=
  (keyList start step N).countP (fun k => decide (k ∉ visited))

/-- Queue invariant of the BFS: every queued rect is a lattice position,
and is either the start (offset `(0,0)`) or satisfies the radius bound
that the push-time pruning enforces. -/
def QInv (start : RectM) (step maxRadius : ℚ) (q : List RectM) : Prop :=
  ∀ r ∈ q, ∃ i j : ℤ, r = shiftRect start step i j ∧
    ((i = 0 ∧ j = 0) ∨ |(i : ℚ) * step| + |(j : ℚ) * step| ≤ maxRadius)

/-! ## Specification-side definitions (written from the spec's words,
to be compared with the source-translated definitions above) -/

/-- The specification's rule list for `checkPlacementLegality` (§4.3),
written independently of the implementation: ordered checks, first
failure wins, and rule 4 compares the inflated candidate against the
rects in `others` NOT inflated. -/
def checkPlacementLegalitySpec (candidate : RectM) (others : List RectM)
    (pathMask : GridIndex) (opts : LegalityOptions) : LegalityResult :=
  if !(inside candidate opts.site) then
    { ok := false, reason := some "outside site bounds" }
  else if pathMask.anyOccupied candidate then
    { ok := false, reason := some "overlaps path" }
  else if pathMask.anyOccupied (inflate candidate opts.minAisle) then
    { ok := false, reason := some ("violates aisle clearance " ++ toString opts.minAisle ++ " m") }
  else if others.any (fun o => aabbOverlap (inflate candidate opts.minAisle) o) then
    { ok := false, reason := some ("too close to another block (< " ++ toString opts.minAisle ++ " m)") }
  else { ok := true, reason := none }

/-- All unordered pairs of a list, each taken once in list order. -/
def allPairs {α : Type} : List α → List (α × α)
  | [] => []
  | a :: rest => rest.map (fun b => (a, b)) ++ allPairs rest

/-- The claim's formula for `clearanceViolations`: one count per block
whose inflated rect touches the path mask, plus one count per unordered
pair whose rects — BOTH inflated by `minAisle` — overlap. -/
def clearViolSpecClaim (pathMask : GridIndex) (minAisle : ℚ) (blocks : List Block) : ℕ :=
  blocks.countP (fun a => pathMask.anyOccupied (inflate (blockRect a) minAisle)) +
    (allPairs blocks).countP (fun p =>
      aabbOverlap (inflate (blockRect p.1) minAisle) (inflate (blockRect p.2) minAisle))

/-- The amended formula: as the claim, except only the FIRST block of
each pair is inflated (the other rect is compared raw), matching the
asymmetric rule of `checkPlacementLegality`. -/
def clearViolSpecAmended (pathMask : GridIndex) (minAisle : ℚ) (blocks : List Block) : ℕ :=
  blocks.countP (fun a => pathMask.anyOccupied (inflate (blockRect a) minAisle)) +
    (allPairs blocks).countP (fun p =>
      aabbOverlap (inflate (blockRect p.1) minAisle) (blockRect p.2))

/-! ## Basic lemmas about the grid embedding -/

set_option maxRecDepth 100000

theorem mem_intRange {lo hi a : ℤ} : a ∈ intRange lo hi ↔ lo ≤ a ∧ a < hi := by
  unfold intRange
  constructor
  · intro h
    rcases List.mem_map.mp h with ⟨k, hk, rfl⟩
    rw [List.mem_range] at hk
    omega
  · rintro ⟨h1, h2⟩
    refine List.mem_map.mpr ⟨(a - lo).toNat, ?_, by omega⟩
    rw [List.mem_range]
    omega

theorem intRange_self (a : ℤ) : intRange a a = [] := by
  simp [intRange]

theorem intRange_eq_nil_iff {lo hi : ℤ} : intRange lo hi = [] ↔ hi ≤ lo := by
  unfold intRange
  rw [List.map_eq_nil_iff, List.range_eq_nil]
  omega

/-- The index interval `[⌊q⌋, ⌈q⌉)` of a zero-extent coordinate is empty
exactly when `q` is an integer. -/
theorem intRange_floor_ceil_eq_nil_iff (q : ℚ) :
    intRange ⌊q⌋ ⌈q⌉ = [] ↔ ∃ k : ℤ, q = (k : ℚ) := by
  rw [intRange_eq_nil_iff]
  constructor
  · intro hle
    refine ⟨⌊q⌋, ?_⟩
    have h1 : (⌊q⌋ : ℚ) ≤ q := Int.floor_le q
    have h2 : q ≤ (⌈q⌉ : ℚ) := Int.le_ceil q
    have h3 : ((⌈q⌉ : ℤ) : ℚ) ≤ ((⌊q⌋ : ℤ) : ℚ) := by exact_mod_cast hle
    linarith
  · rintro ⟨k, rfl⟩
    rw [Int.floor_intCast, Int.ceil_intCast]

theorem foldl_const {α β : Type} (l : List α) (x : β) :
    l.foldl (fun a _ => a) x = x := by
  induction l with
  | nil => rfl
  | cons h t ih => exact ih

theorem GridIndex.set_cellSize (g : GridIndex) (c r : ℤ) (v : Bool) :
    (g.set c r v).cellSize = g.cellSize := by
  unfold GridIndex.set
  split <;> rfl

theorem GridIndex.set_cols (g : GridIndex) (c r : ℤ) (v : Bool) :
    (g.set c r v).cols = g.cols := by
  unfold GridIndex.set
  split <;> rfl

theorem GridIndex.set_rows (g : GridIndex) (c r : ℤ) (v : Bool) :
    (g.set c r v).rows = g.rows := by
  unfold GridIndex.set
  split <;> rfl

theorem GridIndex.inBounds_set (g : GridIndex) (c r c' r' : ℤ) (v : Bool) :
    (g.set c r v).inBounds c' r' = g.inBounds c' r' := by
  unfold GridIndex.inBounds
  rw [GridIndex.set_cols, GridIndex.set_rows]

theorem GridIndex.idx_set (g : GridIndex) (c r c' r' : ℤ) (v : Bool) :
    (g.set c r v).idx c' r' = g.idx c' r' := by
  unfold GridIndex.idx
  rw [GridIndex.set_cols]

theorem GridIndex.set_data_of_inBounds (g : GridIndex) (c r : ℤ) (v : Bool)
    (hb : g.inBounds c r = true) :
    (g.set c r v).data = fun n => if n = g.idx c r then v else g.data n := by
  unfold GridIndex.set
  rw [if_pos hb]

/-- Writing `true` makes the written cell read `true` (also out of bounds,
where the write is a no-op but reads are fail-closed). -/
theorem GridIndex.get_set_true_self (g : GridIndex) (c r : ℤ) :
    (g.set c r true).get c r = true := by
  unfold GridIndex.get
  rw [GridIndex.inBounds_set]
  by_cases hb : g.inBounds c r
  · rw [if_pos hb, GridIndex.set_data_of_inBounds _ _ _ _ hb, GridIndex.idx_set]
    simp
  · rw [if_neg hb]

/-- Writing `true` never turns an occupied read unoccupied. -/
theorem GridIndex.get_set_true_mono (g : GridIndex) (c r c' r' : ℤ)
    (h : g.get c' r' = true) : (g.set c r true).get c' r' = true := by
  unfold GridIndex.get at h ⊢
  rw [GridIndex.inBounds_set]
  by_cases hb' : g.inBounds c' r'
  · rw [if_pos hb'] at h
    rw [if_pos hb']
    by_cases hb : g.inBounds c r
    · rw [GridIndex.set_data_of_inBounds _ _ _ _ hb, GridIndex.idx_set]
      by_cases he : g.idx c' r' = g.idx c r
      · simp [he]
      · simpa [he] using h
    · unfold GridIndex.set
      rw [if_neg hb]
      exact h
  · rw [if_neg hb']

theorem foldl_set_true_mono (L : List ℤ) (g : GridIndex) (r c' r' : ℤ)
    (h : g.get c' r' = true) :
    (L.foldl (fun g2 c => g2.set c r true) g).get c' r' = true := by
  induction L generalizing g with
  | nil => exact h
  | cons a t ih => exact ih _ (GridIndex.get_set_true_mono _ _ _ _ _ h)

theorem foldl_set_true_mem (L : List ℤ) (g : GridIndex) (r c : ℤ) (hc : c ∈ L) :
    (L.foldl (fun g2 cc => g2.set cc r true) g).get c r = true := by
  induction L generalizing g with
  | nil => cases hc
  | cons a t ih =>
    rcases List.mem_cons.mp hc with rfl | hmem
    · simp only [List.foldl_cons]
      exact foldl_set_true_mono _ _ _ _ _ (GridIndex.get_set_true_self _ _ _)
    · simp only [List.foldl_cons]
      exact ih _ hmem

theorem foldl_rows_set_true_mono (RL CL : List ℤ) (g : GridIndex) (c' r' : ℤ)
    (h : g.get c' r' = true) :
    (RL.foldl (fun g1 rr => CL.foldl (fun g2 cc => g2.set cc rr true) g1) g).get c' r' = true := by
  induction RL generalizing g with
  | nil => exact h
  | cons a t ih => exact ih _ (foldl_set_true_mono _ _ _ _ _ h)

theorem foldl_rows_set_true_mem (RL CL : List ℤ) (g : GridIndex) (c r : ℤ)
    (hc : c ∈ CL) (hr : r ∈ RL) :
    (RL.foldl (fun g1 rr => CL.foldl (fun g2 cc => g2.set cc rr true) g1) g).get c r = true := by
  induction RL generalizing g with
  | nil => cases hr
  | cons a t ih =>
    rcases List.mem_cons.mp hr with rfl | hmem
    · simp only [List.foldl_cons]
      exact foldl_rows_set_true_mono _ _ _ _ _ (foldl_set_true_mem _ _ _ _ hc)
    · simp only [List.foldl_cons]
      exact ih _ hmem

/-- `fillRect _ true` makes every cell of the covered index range read
occupied. -/
theorem GridIndex.fillRect_get_true (g : GridIndex) (rect : RectM) (c r : ℤ)
    (hc : c ∈ g.colRange rect) (hr : r ∈ g.rowRange rect) :
    (g.fillRect rect true).get c r = true := by
  unfold GridIndex.fillRect
  exact foldl_rows_set_true_mem _ _ _ _ _ hc hr

theorem foldl_set_cellSize (L : List ℤ) (g : GridIndex) (r : ℤ) (v : Bool) :
    (L.foldl (fun g2 c => g2.set c r v) g).cellSize = g.cellSize := by
  induction L generalizing g with
  | nil => rfl
  | cons a t ih =>
    simp only [List.foldl_cons]
    rw [ih, GridIndex.set_cellSize]

theorem foldl_rows_set_cellSize (RL CL : List ℤ) (g : GridIndex) (v : Bool) :
    (RL.foldl (fun g1 rr => CL.foldl (fun g2 cc => g2.set cc rr v) g1) g).cellSize = g.cellSize := by
  induction RL generalizing g with
  | nil => rfl
  | cons a t ih =>
    simp only [List.foldl_cons]
    rw [ih, foldl_set_cellSize]

theorem GridIndex.fillRect_cellSize (g : GridIndex) (rect : RectM) (v : Bool) :
    (g.fillRect rect v).cellSize = g.cellSize := by
  unfold GridIndex.fillRect
  exact foldl_rows_set_cellSize _ _ _ _

/-- The covered column range is preserved by `fillRect` (it depends only
on `cellSize`). -/
theorem GridIndex.fillRect_colRange (g : GridIndex) (rect rect' : RectM) (v : Bool) :
    (g.fillRect rect v).colRange rect' = g.colRange rect' := by
  unfold GridIndex.colRange
  rw [GridIndex.fillRect_cellSize]

theorem GridIndex.fillRect_rowRange (g : GridIndex) (rect rect' : RectM) (v : Bool) :
    (g.fillRect rect v).rowRange rect' = g.rowRange rect' := by
  unfold GridIndex.rowRange
  rw [GridIndex.fillRect_cellSize]

/-- An `anyOccupied` query is true as soon as one covered cell reads
occupied. -/
theorem GridIndex.anyOccupied_of_get (g : GridIndex) (rect : RectM) (c r : ℤ)
    (hc : c ∈ g.colRange rect) (hr : r ∈ g.rowRange rect) (h : g.get c r = true) :
    g.anyOccupied rect = true := by
  unfold GridIndex.anyOccupied
  rw [List.any_eq_true]
  exact ⟨r, hr, List.any_eq_true.mpr ⟨c, hc, h⟩⟩

/-- A positive-length interval covers at least its floor index. -/
theorem floor_mem_of_pos (a b cs : ℚ) (hcs : 0 < cs) (hab : a < b) :
    ⌊a / cs⌋ ∈ intRange ⌊a / cs⌋ ⌈b / cs⌉ := by
  rw [mem_intRange]
  refine ⟨le_refl _, ?_⟩
  have h1 : (⌊a / cs⌋ : ℚ) ≤ a / cs := Int.floor_le _
  have h2 : a / cs < b / cs := by
    apply div_lt_div_of_pos_right hab hcs
  have h3 : b / cs ≤ (⌈b / cs⌉ : ℚ) := Int.le_ceil _
  exact_mod_cast lt_of_le_of_lt h1 (lt_of_lt_of_le h2 h3)

/-- C7: round-trip — for any rect with positive width and height (and a
positive cell size, as guaranteed by the constructor's clamp), after
`fillRect(R, true)` the query `anyOccupied(R)` returns `true`, whether
the covered cells are inside the grid (they were set) or outside it
(out-of-bounds reads are occupied). -/
theorem c7_fillRect_anyOccupied_roundTrip (g : GridIndex) (r : RectM)
    (hcs : 0 < g.cellSize) (hw : 0 < r.w) (hh : 0 < r.h) :
    (g.fillRect r true).anyOccupied r = true := by
  have hcmem : ⌊r.x / g.cellSize⌋ ∈ g.colRange r := by
    unfold GridIndex.colRange
    exact floor_mem_of_pos _ _ _ hcs (by linarith)
  have hrmem : ⌊r.y / g.cellSize⌋ ∈ g.rowRange r := by
    unfold GridIndex.rowRange
    exact floor_mem_of_pos _ _ _ hcs (by linarith)
  apply GridIndex.anyOccupied_of_get _ _ ⌊r.x / g.cellSize⌋ ⌊r.y / g.cellSize⌋
  · rw [GridIndex.fillRect_colRange]
    exact hcmem
  · rw [GridIndex.fillRect_rowRange]
    exact hrmem
  · exact GridIndex.fillRect_get_true _ _ _ _ hcmem hrmem

/-- Witness for C7 at a concrete grid and rect. -/
theorem c7_witness :
    0 < (mkGridIndex 1 10 10).cellSize ∧ 0 < (2 : ℚ) ∧ 0 < (3 : ℚ) ∧
      ((mkGridIndex 1 10 10).fillRect ⟨4, 5, 2, 3⟩ true).anyOccupied ⟨4, 5, 2, 3⟩ = true :=
  ⟨by with_unfolding_all decide, by norm_num, by norm_num,
    c7_fillRect_anyOccupied_roundTrip (mkGridIndex 1 10 10) ⟨4, 5, 2, 3⟩
      (by with_unfolding_all decide) (by norm_num) (by norm_num)⟩

/-- C4 counterexample: the zero-width rect `{x: 1/2, y: 1/2, w: 0, h: 1}`
is NOT grid-aligned on a unit-cell 10×10 grid, so `fillRect` marks the
cells containing the degenerate segment (the grid changes at cell (0,0))
and `anyOccupied` on the filled grid returns `true`, although the rect's
corner is in bounds — contradicting "fillRect marks zero cells and
anyOccupied returns false unless the corner is out of bounds". -/
theorem c4_counterexample :
    ((mkGridIndex 1 10 10).fillRect ⟨1/2, 1/2, 0, 1⟩ true).anyOccupied ⟨1/2, 1/2, 0, 1⟩ = true ∧
      ((mkGridIndex 1 10 10).fillRect ⟨1/2, 1/2, 0, 1⟩ true).get 0 0 = true ∧
      (mkGridIndex 1 10 10).get 0 0 = false ∧
      (mkGridIndex 1 10 10).inBounds 0 0 = true := by
  refine ⟨?_, ?_, ?_, ?_⟩ <;> with_unfolding_all decide

/-- C4 (amended): full characterization of degenerate rects.  For a rect
of zero width (resp. zero height) the covered column (resp. row) index
range is empty EXACTLY when `x/cellSize` (resp. `y/cellSize`) is an
integer; whenever either covered range is empty, `fillRect` marks zero
cells (the grid is unchanged) and `anyOccupied` returns `false`, even
when the corner is out of bounds.  Otherwise the rect covers a nonempty
cell range: `anyOccupied` is true exactly when some covered cell reads
occupied (out-of-bounds reads fail closed), and after `fillRect(R, true)`
every covered cell reads occupied (in-bounds cells are written;
out-of-bounds writes are no-ops but reads are fail-closed). -/
theorem c4_zero_size_amended (g : GridIndex) (r : RectM) (v : Bool) :
    (r.w = 0 → (g.colRange r = [] ↔ ∃ k : ℤ, r.x / g.cellSize = (k : ℚ))) ∧
      (r.h = 0 → (g.rowRange r = [] ↔ ∃ k : ℤ, r.y / g.cellSize = (k : ℚ))) ∧
      (g.colRange r = [] ∨ g.rowRange r = [] →
        g.fillRect r v = g ∧ g.anyOccupied r = false) ∧
      (g.anyOccupied r = true ↔
        ∃ rr ∈ g.rowRange r, ∃ c ∈ g.colRange r, g.get c rr = true) ∧
      (∀ c ∈ g.colRange r, ∀ rr ∈ g.rowRange r, (g.fillRect r true).get c rr = true) := by
  refine ⟨?_, ?_, ?_, ?_, ?_⟩
  · intro hw
    unfold GridIndex.colRange
    rw [hw, add_zero]
    exact intRange_floor_ceil_eq_nil_iff _
  · intro hh
    unfold GridIndex.rowRange
    rw [hh, add_zero]
    exact intRange_floor_ceil_eq_nil_iff _
  · rintro (hcol | hrow)
    · constructor
      · unfold GridIndex.fillRect
        rw [hcol]
        simp only [List.foldl_nil]
        exact foldl_const _ _
      · unfold GridIndex.anyOccupied
        rw [hcol]
        simp
    · constructor
      · unfold GridIndex.fillRect
        rw [hrow]
        rfl
      · unfold GridIndex.anyOccupied
        rw [hrow]
        rfl
  · unfold GridIndex.anyOccupied
    simp [List.any_eq_true]
  · intro c hc rr hr
    exact GridIndex.fillRect_get_true g r c rr hc hr

/-- Witness for the amended C4: an aligned zero-width rect on a concrete
grid — the alignment biconditional yields the empty column range, and
from it the unchanged grid and the false query. -/
theorem c4_witness :
    (mkGridIndex 1 10 10).colRange ⟨2, 3, 0, 5⟩ = [] ∧
      (mkGridIndex 1 10 10).fillRect ⟨2, 3, 0, 5⟩ true = mkGridIndex 1 10 10 ∧
      (mkGridIndex 1 10 10).anyOccupied ⟨2, 3, 0, 5⟩ = false := by
  have h := c4_zero_size_amended (mkGridIndex 1 10 10) ⟨2, 3, 0, 5⟩ true
  have hcol : (mkGridIndex 1 10 10).colRange ⟨2, 3, 0, 5⟩ = [] :=
    (h.1 rfl).mpr ⟨2, by with_unfolding_all decide⟩
  exact ⟨hcol, h.2.2.1 (Or.inl hcol)⟩

/-! ## C6: order and reasons of `checkPlacementLegality` -/

theorem inflate_zero (o : RectM) : inflate o 0 = o := by
  simp [inflate]

/-- The source's first-failure loop over `others` returns the same result
as an `any` test. -/
theorem checkOthers_eq_any (expanded : RectM) (msg : String) (others : List RectM) :
    checkOthers expanded msg others =
      (if others.any (fun o => aabbOverlap expanded o) then
        ({ ok := false, reason := some msg } : LegalityResult)
      else { ok := true, reason := none }) := by
  induction others with
  | nil => rfl
  | cons o rest ih =>
    unfold checkOthers
    rw [inflate_zero]
    by_cases h : aabbOverlap expanded o
    · simp [h]
    · simp only [h, if_false, List.any_cons]
      rw [ih]
      simp [h]

/-- C6: `checkPlacementLegality` evaluates its failure conditions in the
spec's fixed order and returns the first failing one's result — outside
site bounds, then path overlap, then aisle clearance to the path, then
"too close to another block" with the inflated candidate tested against
the NON-inflated `others`, else ok with no reason. -/
theorem c6_checkPlacementLegality_order (candidate : RectM) (others : List RectM)
    (pathMask : GridIndex) (opts : LegalityOptions) :
    checkPlacementLegality candidate others pathMask opts =
      checkPlacementLegalitySpec candidate others pathMask opts := by
  unfold checkPlacementLegality checkPlacementLegalitySpec
  by_cases h1 : inside candidate opts.site
  · simp only [h1]
    by_cases h2 : pathMask.anyOccupied candidate
    · simp [h2]
    · simp only [h2, Bool.false_eq_true, if_false]
      by_cases h3 : pathMask.anyOccupied (inflate candidate opts.minAisle)
      · simp [h3]
      · simp only [h3, Bool.false_eq_true, if_false]
        exact checkOthers_eq_any _ _ _
  · simp [h1]

/-! ## C3: the `clearanceViolations` term of `scoreLayout` -/

/-- C3 counterexample: two 2×2 blocks with a horizontal gap of 1.5 m and
`minAisle` 1 m on an empty 100×100 mask.  With both rects inflated the
pair overlaps (gap < 2·minAisle) so the claim's formula counts 1, but the
code inflates only one side (gap ≥ minAisle) and counts 0. -/
theorem c3_counterexample :
    (scoreLayout [⟨"a", "k", 10, 10, 2, 2, none⟩, ⟨"b", "k", 27/2, 10, 2, 2, none⟩]
        ⟨1, 1, ⟨0, 0, 100, 100⟩, mkGridIndex 1 100 100, [], [], (none, none, none)⟩).clearanceViolations ≠
      clearViolSpecClaim (mkGridIndex 1 100 100) 1
        [⟨"a", "k", 10, 10, 2, 2, none⟩, ⟨"b", "k", 27/2, 10, 2, 2, none⟩] := by
  with_unfolding_all decide

/-- C3 (amended): `scoreLayout`'s `clearanceViolations` equals the sum of
(a) one count per block whose `minAisle`-inflated rect intersects the
path mask, plus (b) one count per unordered pair of distinct blocks whose
first rect, inflated by `minAisle`, axis-aligned-overlaps the other,
NON-inflated rect (only one side of each pair is inflated, as in §4.3). -/
theorem c3_clearanceViolations_amended (blocks : List Block) (ctx : ScoreContext) :
    (scoreLayout blocks ctx).clearanceViolations =
      clearViolSpecAmended ctx.pathMask ctx.minAisle blocks := by
  show clearViolOf ctx.pathMask ctx.minAisle blocks = _
  unfold clearViolSpecAmended
  induction blocks with
  | nil => rfl
  | cons a rest ih =>
    unfold clearViolOf allPairs
    rw [ih, List.countP_cons, List.countP_append, List.countP_map]
    have hmap : (List.countP ((fun p : Block × Block =>
        aabbOverlap (inflate (blockRect p.1) ctx.minAisle) (blockRect p.2)) ∘
          (fun b => (a, b))) rest) =
        rest.countP (fun b => aabbOverlap (inflate (blockRect a) ctx.minAisle) (blockRect b)) := rfl
    rw [hmap]
    omega

/-! ## C2: temperature decay -/

/-- One optimizer step keeps the invariant
`temperature = cooling ^ legalCount`: the step multiplies the temperature
by the cooling factor exactly when its candidate passes the legality
gate (the `continue` on an illegal candidate skips the decay). -/
theorem optStep_temperature (initial : Plan) (ctx : ScoreContext) (grid cooling : ℚ)
    (st : OptState) (iter : ℕ) (c : IterChoice)
    (h : st.temperature = cooling ^ st.legalCount) :
    (optStep initial ctx grid cooling st iter c).temperature =
      cooling ^ (optStep initial ctx grid cooling st iter c).legalCount := by
  unfold optStep
  by_cases hleg : isPlanLegal (applyGen grid c st.bestBlocks).1 ctx
  · simp only [hleg, Bool.not_true, Bool.false_eq_true, if_false]
    by_cases hacc : ((scoreLayout (applyGen grid c st.bestBlocks).1 ctx).total < st.best.total : Prop)
    · simp [hacc, h, pow_succ]
    · simp only [hacc, decide_eq_true_eq, if_false, decide_eq_false_iff_not, Bool.false_or]
      by_cases hw : c.acc
      · simp [hw, hacc, h, pow_succ]
      · simp [hw, hacc, h, pow_succ]
  · simp only [hleg, Bool.not_false, if_true]
    exact h

theorem optLoop_temperature (initial : Plan) (ctx : ScoreContext) (grid cooling : ℚ)
    (stream : ℕ → IterChoice) (n : ℕ) :
    ∀ (i : ℕ) (st : OptState), st.temperature = cooling ^ st.legalCount →
      (optLoop initial ctx grid cooling stream i n st).temperature =
        cooling ^ (optLoop initial ctx grid cooling stream i n st).legalCount := by
  induction n with
  | zero => intro i st h; exact h
  | succ m ih =>
    intro i st h
    exact ih (i + 1) _ (optStep_temperature _ _ _ _ _ _ _ h)

/-- C2 counterexample: one iteration whose shifted candidate leaves the
site is legality-rejected, the `continue` skips `temperature *= cooling`,
and the final temperature is 1 rather than `cooling ^ iterations`. -/
theorem c2_counterexample :
    (optimizeFinalState (fun _ => ⟨1, 0, 0, false⟩)
        ⟨"p", [⟨"a", "k", 9, 0, 1, 1, none⟩], 0, []⟩
        ⟨1, 0, ⟨0, 0, 10, 10⟩, mkGridIndex 1 10 10, [], [], (none, none, none)⟩
        ⟨some 1, none, none⟩).temperature ≠
      coolingOf ⟨some 1, none, none⟩ ^ iterationsOf ⟨some 1, none, none⟩ := by
  with_unfolding_all decide

/-- C2 (amended): the temperature is multiplied by the cooling factor
exactly once per iteration whose candidate passes the hard legality gate
(`continue` on a legality-rejected candidate skips the decay), so the
final temperature equals `cooling ^ legalCount` where `legalCount` is the
number of gate-passing iterations, not `cooling ^ iterations`. -/
theorem c2_temperature_decay_amended (stream : ℕ → IterChoice) (initial : Plan)
    (ctx : ScoreContext) (opts : OptimizeOptions) :
    (optimizeFinalState stream initial ctx opts).temperature =
      coolingOf opts ^ (optimizeFinalState stream initial ctx opts).legalCount := by
  unfold optimizeFinalState
  exact optLoop_temperature _ _ _ _ _ _ 0 _ (by rw [pow_zero])

/-! ## C10: returned score matches returned plan -/

/-- One optimizer step keeps `best = scoreLayout bestBlocks`. -/
theorem optStep_best_sync (initial : Plan) (ctx : ScoreContext) (grid cooling : ℚ)
    (st : OptState) (iter : ℕ) (c : IterChoice)
    (h : st.best = scoreLayout st.bestBlocks ctx) :
    (optStep initial ctx grid cooling st iter c).best =
      scoreLayout (optStep initial ctx grid cooling st iter c).bestBlocks ctx := by
  unfold optStep
  by_cases hleg : isPlanLegal (applyGen grid c st.bestBlocks).1 ctx
  · simp only [hleg, Bool.not_true, Bool.false_eq_true, if_false]
    by_cases hacc : ((scoreLayout (applyGen grid c st.bestBlocks).1 ctx).total < st.best.total : Prop)
    · simp [hacc]
    · by_cases hw : c.acc
      · simp [hw, hacc]
      · have haccept : (decide ((scoreLayout (applyGen grid c st.bestBlocks).1 ctx).total <
            st.best.total) || c.acc) = false := by
          simp [hacc, hw]
        simp only [haccept, Bool.false_eq_true, if_false]
        exact h
  · simp only [hleg, Bool.not_false, if_true]
    exact h

theorem optLoop_best_sync (initial : Plan) (ctx : ScoreContext) (grid cooling : ℚ)
    (stream : ℕ → IterChoice) (n : ℕ) :
    ∀ (i : ℕ) (st : OptState), st.best = scoreLayout st.bestBlocks ctx →
      (optLoop initial ctx grid cooling stream i n st).best =
        scoreLayout (optLoop initial ctx grid cooling stream i n st).bestBlocks ctx := by
  induction n with
  | zero => intro i st h; exact h
  | succ m ih =>
    intro i st h
    exact ih (i + 1) _ (optStep_best_sync _ _ _ _ _ _ _ h)

/-- C10: the `bestScore` returned by `optimizeHeuristic` always equals
`scoreLayout(bestPlan.blocks, ctx).total` for the returned `bestPlan`,
for every input and every sequence of random choices — the reported score
and the returned arrangement are never out of sync. -/
theorem c10_bestScore_sync (stream : ℕ → IterChoice) (initial : Plan)
    (ctx : ScoreContext) (opts : OptimizeOptions) :
    (optimizeHeuristic stream initial ctx opts).bestScore =
      (scoreLayout (optimizeHeuristic stream initial ctx opts).bestPlan.blocks ctx).total := by
  have h := optLoop_best_sync initial ctx (gridOf ctx opts) (coolingOf opts) stream
    (iterationsOf opts) 0
    { bestBlocks := cloneBlocks initial.blocks
      best := scoreLayout (cloneBlocks initial.blocks) ctx
      temperature := 1, history := [], legalCount := 0 } rfl
  show (optLoop initial ctx (gridOf ctx opts) (coolingOf opts) stream 0 (iterationsOf opts)
      { bestBlocks := cloneBlocks initial.blocks
        best := scoreLayout (cloneBlocks initial.blocks) ctx
        temperature := 1, history := [], legalCount := 0 }).best.total =
    (scoreLayout (optLoop initial ctx (gridOf ctx opts) (coolingOf opts) stream 0
      (iterationsOf opts)
      { bestBlocks := cloneBlocks initial.blocks
        best := scoreLayout (cloneBlocks initial.blocks) ctx
        temperature := 1, history := [], legalCount := 0 }).bestBlocks ctx).total
  rw [h]

/-! ## C1: legality of the returned plan -/

/-- `cloneBlocks` is value-preserving. -/
theorem cloneBlocks_eq (blocks : List Block) : cloneBlocks blocks = blocks := by
  unfold cloneBlocks
  have hb : ∀ b : Block, ({ b with meta := b.meta.map (fun m => m) } : Block) = b := by
    intro b
    have : b.meta.map (fun m => m) = b.meta := by
      cases b.meta <;> rfl
    rw [this]
  induction blocks with
  | nil => rfl
  | cons b t ih => rw [List.map_cons, hb b, ih]

/-- One optimizer step preserves legality of `bestBlocks`: the hard gate
only lets gate-passing candidates be accepted. -/
theorem optStep_legal (initial : Plan) (ctx : ScoreContext) (grid cooling : ℚ)
    (st : OptState) (iter : ℕ) (c : IterChoice)
    (h : isPlanLegal st.bestBlocks ctx = true) :
    isPlanLegal (optStep initial ctx grid cooling st iter c).bestBlocks ctx = true := by
  unfold optStep
  by_cases hleg : isPlanLegal (applyGen grid c st.bestBlocks).1 ctx
  · simp only [hleg, Bool.not_true, Bool.false_eq_true, if_false]
    by_cases hacc : ((scoreLayout (applyGen grid c st.bestBlocks).1 ctx).total < st.best.total : Prop)
    · simpa [hacc] using hleg
    · by_cases hw : c.acc
      · simpa [hw, hacc] using hleg
      · have haccept : (decide ((scoreLayout (applyGen grid c st.bestBlocks).1 ctx).total <
            st.best.total) || c.acc) = false := by
          simp [hacc, hw]
        simp only [haccept, Bool.false_eq_true, if_false]
        exact h
  · simp only [hleg, Bool.not_false, if_true]
    exact h

theorem optLoop_legal (initial : Plan) (ctx : ScoreContext) (grid cooling : ℚ)
    (stream : ℕ → IterChoice) (n : ℕ) :
    ∀ (i : ℕ) (st : OptState), isPlanLegal st.bestBlocks ctx = true →
      isPlanLegal (optLoop initial ctx grid cooling stream i n st).bestBlocks ctx = true := by
  induction n with
  | zero => intro i st h; exact h
  | succ m ih =>
    intro i st h
    exact ih (i + 1) _ (optStep_legal _ _ _ _ _ _ _ h)

/-- C1 counterexample: an initial plan whose single block lies far
outside the site fails every internal legality check; with a choice
stream that makes every candidate inherit the illegal position (all moves
are no-ops or tiny shifts of an already-illegal block), no candidate ever
passes the gate, and `optimizeHeuristic` returns the illegal initial
arrangement unchanged — so the returned block list does NOT pass the
optimizer's internal legality checks for every initial plan. -/
theorem c1_counterexample :
    isPlanLegal
      (optimizeHeuristic (fun _ => ⟨0, 0, 0, false⟩)
          ⟨"p", [⟨"a", "k", 100, 100, 1, 1, none⟩], 0, []⟩
          ⟨1, 1, ⟨0, 0, 10, 10⟩, mkGridIndex 1 10 10, [], [], (none, none, none)⟩
          ⟨none, none, none⟩).bestPlan.blocks
      ⟨1, 1, ⟨0, 0, 10, 10⟩, mkGridIndex 1 10 10, [], [], (none, none, none)⟩ = false := by
  with_unfolding_all decide

/-- C1 (amended): whenever the INITIAL plan's blocks pass the optimizer's
internal legality checks (`isPlanLegal`), the block list of the plan
returned by `optimizeHeuristic` passes them too, for every score context,
option record and sequence of random choices: the hard gate rejects every
illegal candidate, so no illegal state is ever reachable from a legal
start. -/
theorem c1_legal_preserved (stream : ℕ → IterChoice) (initial : Plan)
    (ctx : ScoreContext) (opts : OptimizeOptions)
    (h : isPlanLegal initial.blocks ctx = true) :
    isPlanLegal (optimizeHeuristic stream initial ctx opts).bestPlan.blocks ctx = true := by
  show isPlanLegal (optLoop initial ctx (gridOf ctx opts) (coolingOf opts) stream 0
      (iterationsOf opts)
      { bestBlocks := cloneBlocks initial.blocks
        best := scoreLayout (cloneBlocks initial.blocks) ctx
        temperature := 1, history := [], legalCount := 0 }).bestBlocks ctx = true
  apply optLoop_legal
  show isPlanLegal (cloneBlocks initial.blocks) ctx = true
  rw [cloneBlocks_eq]
  exact h

/-- Witness for the amended C1 at a concrete legal plan. -/
theorem c1_witness :
    isPlanLegal [⟨"a", "k", 1, 1, 2, 2, none⟩]
        ⟨1, 1, ⟨0, 0, 20, 20⟩, mkGridIndex 1 20 20, [], [], (none, none, none)⟩ = true ∧
      isPlanLegal
        (optimizeHeuristic (fun _ => ⟨0, 0, 0, true⟩)
            ⟨"p", [⟨"a", "k", 1, 1, 2, 2, none⟩], 0, []⟩
            ⟨1, 1, ⟨0, 0, 20, 20⟩, mkGridIndex 1 20 20, [], [], (none, none, none)⟩
            ⟨some 2, none, none⟩).bestPlan.blocks
        ⟨1, 1, ⟨0, 0, 20, 20⟩, mkGridIndex 1 20 20, [], [], (none, none, none)⟩ = true :=
  ⟨by with_unfolding_all decide,
    c1_legal_preserved (fun _ => ⟨0, 0, 0, true⟩)
      ⟨"p", [⟨"a", "k", 1, 1, 2, 2, none⟩], 0, []⟩
      ⟨1, 1, ⟨0, 0, 20, 20⟩, mkGridIndex 1 20 20, [], [], (none, none, none)⟩
      ⟨some 2, none, none⟩ (by with_unfolding_all decide)⟩

/-! ## C5: determinism and the random source -/

/-- The loop reads the choice stream only at the indices of its
iterations. -/
theorem optLoop_stream_congr (initial : Plan) (ctx : ScoreContext) (grid cooling : ℚ)
    (s1 s2 : ℕ → IterChoice) (n : ℕ) :
    ∀ (i : ℕ) (st : OptState), (∀ k, i ≤ k → k < i + n → s1 k = s2 k) →
      optLoop initial ctx grid cooling s1 i n st =
        optLoop initial ctx grid cooling s2 i n st := by
  induction n with
  | zero => intro i st _; rfl
  | succ m ih =>
    intro i st h
    show optLoop initial ctx grid cooling s1 (i + 1) m
        (optStep initial ctx grid cooling st i (s1 i)) = _
    rw [h i (le_refl i) (by omega)]
    exact ih (i + 1) _ (fun k hk1 hk2 => h k (by omega) (by omega))

/-- C5 counterexample: `optimizeHeuristic` has no seed input — its random
source is the ambient `Math.random()`, modelled as the choice stream.
Two runs with IDENTICAL plan, score context and options but different
ambient draws (a shift right vs a shift down, both legal and accepted)
return different best plans, so results are not reproducible through the
function's inputs. -/
theorem c5_counterexample :
    optimizeHeuristic (fun _ => ⟨1, 0, 0, true⟩)
        ⟨"p", [⟨"a", "k", 0, 0, 2, 2, none⟩], 0, []⟩
        ⟨1, 0, ⟨0, 0, 10, 10⟩, mkGridIndex 1 10 10, [], [], (none, none, none)⟩
        ⟨some 1, none, none⟩ ≠
      optimizeHeuristic (fun _ => ⟨1, 0, 2, true⟩)
        ⟨"p", [⟨"a", "k", 0, 0, 2, 2, none⟩], 0, []⟩
        ⟨1, 0, ⟨0, 0, 10, 10⟩, mkGridIndex 1 10 10, [], [], (none, none, none)⟩
        ⟨some 1, none, none⟩ := by
  with_unfolding_all decide

/-- C5 (amended): the random source is ambient (`Math.random()` via
`randInt` and the acceptance draw), not an injectable seed; the algorithm
is nevertheless a deterministic function of its inputs and the random
draws: two runs whose choice streams agree on the first `iterations`
indices (the only ones consumed) return identical results — best plan,
best score and history. -/
theorem c5_deterministic_given_draws (s1 s2 : ℕ → IterChoice) (initial : Plan)
    (ctx : ScoreContext) (opts : OptimizeOptions)
    (h : ∀ i, i < iterationsOf opts → s1 i = s2 i) :
    optimizeHeuristic s1 initial ctx opts = optimizeHeuristic s2 initial ctx opts := by
  show ({ bestPlan := { initial with blocks := (optimizeFinalState s1 initial ctx opts).bestBlocks }
          bestScore := (optimizeFinalState s1 initial ctx opts).best.total
          history := (optimizeFinalState s1 initial ctx opts).history } : OptimizeResult) = _
  have hfs : optimizeFinalState s1 initial ctx opts = optimizeFinalState s2 initial ctx opts := by
    unfold optimizeFinalState
    exact optLoop_stream_congr _ _ _ _ _ _ _ 0 _ (fun k hk1 hk2 => h k (by omega))
  rw [hfs]
  rfl

/-- Witness for the amended C5: streams that differ only beyond the
iteration budget produce identical results. -/
theorem c5_witness :
    optimizeHeuristic (fun _ => ⟨0, 0, 0, false⟩)
        ⟨"p", [⟨"a", "k", 1, 1, 2, 2, none⟩], 0, []⟩
        ⟨1, 1, ⟨0, 0, 20, 20⟩, mkGridIndex 1 20 20, [], [], (none, none, none)⟩
        ⟨some 1, none, none⟩ =
      optimizeHeuristic (fun i => if i < 1 then ⟨0, 0, 0, false⟩ else ⟨1, 2, 3, true⟩)
        ⟨"p", [⟨"a", "k", 1, 1, 2, 2, none⟩], 0, []⟩
        ⟨1, 1, ⟨0, 0, 20, 20⟩, mkGridIndex 1 20 20, [], [], (none, none, none)⟩
        ⟨some 1, none, none⟩ :=
  c5_deterministic_given_draws _ _ _ _ _ (fun i hi => by
    have hi1 : i < 1 := hi
    rw [if_pos hi1])

/-! ## C9: no mutation of the caller's data, fresh returned array -/

/-- `allocGen` preserves store entry 0, only appends to the store, and
returns an index that is positive and in range. -/
theorem allocGen_inv (grid : ℚ) (c : IterChoice) (σ : Store) (inId : ℕ)
    (X : List Block) (h0 : σ[0]? = some X) (h1 : 1 ≤ inId) (h2 : inId < σ.length) :
    (allocGen grid c σ inId).1[0]? = some X ∧
      1 ≤ (allocGen grid c σ inId).2.1 ∧
      (allocGen grid c σ inId).2.1 < (allocGen grid c σ inId).1.length ∧
      σ.length ≤ (allocGen grid c σ inId).1.length := by
  have hlen : 0 < σ.length := by omega
  have happ : ∀ (nb : List Block), (σ ++ [nb])[0]? = some X := by
    intro nb
    cases σ with
    | nil => simp at hlen
    | cons x t => simpa using h0
  have halloc : ∀ (nb : List Block) (s : String),
      ((σ ++ [nb], σ.length, s) : Store × ℕ × String).1[0]? = some X ∧
        1 ≤ (σ ++ [nb], σ.length, s).2.1 ∧
        ((σ ++ [nb], σ.length, s) : Store × ℕ × String).2.1 <
          ((σ ++ [nb], σ.length, s) : Store × ℕ × String).1.length ∧
        σ.length ≤ ((σ ++ [nb], σ.length, s) : Store × ℕ × String).1.length := by
    intro nb s
    refine ⟨happ nb, ?_, ?_, ?_⟩
    · show 1 ≤ σ.length
      omega
    · show σ.length < (σ ++ [nb]).length
      simp only [List.length_append, List.length_cons, List.length_nil]
      omega
    · show σ.length ≤ (σ ++ [nb]).length
      simp only [List.length_append, List.length_cons, List.length_nil]
      omega
  unfold allocGen storeAlloc
  split
  · split
    · exact ⟨h0, h1, h2, le_refl _⟩
    · exact halloc _ _
  · split
    · split
      · exact ⟨h0, h1, h2, le_refl _⟩
      · exact halloc _ _
    · split
      · split
        · exact ⟨h0, h1, h2, le_refl _⟩
        · exact halloc _ _
      · split
        · exact ⟨h0, h1, h2, le_refl _⟩
        · exact halloc _ _

/-- One store-instrumented step preserves: entry 0 is the caller's
array, the best index is positive and in range. -/
theorem storeStep_inv (ctx : ScoreContext) (grid cooling : ℚ) (st : StoreState)
    (c : IterChoice) (X : List Block)
    (h0 : st.store[0]? = some X) (h1 : 1 ≤ st.bestIdx) (h2 : st.bestIdx < st.store.length) :
    (storeStep ctx grid cooling st c).store[0]? = some X ∧
      1 ≤ (storeStep ctx grid cooling st c).bestIdx ∧
      (storeStep ctx grid cooling st c).bestIdx < (storeStep ctx grid cooling st c).store.length := by
  obtain ⟨g0, g1, g2, g3⟩ := allocGen_inv grid c st.store st.bestIdx X h0 h1 h2
  unfold storeStep
  by_cases hleg : isPlanLegal (storeRead (allocGen grid c st.store st.bestIdx).1
      (allocGen grid c st.store st.bestIdx).2.1) ctx
  · simp only [hleg, Bool.not_true, Bool.false_eq_true, if_false]
    by_cases hacc : ((scoreLayout (storeRead (allocGen grid c st.store st.bestIdx).1
        (allocGen grid c st.store st.bestIdx).2.1) ctx).total < st.best.total : Prop)
    · have haccept : (decide ((scoreLayout (storeRead (allocGen grid c st.store st.bestIdx).1
          (allocGen grid c st.store st.bestIdx).2.1) ctx).total < st.best.total) || c.acc)
          = true := by
        simp [hacc]
      simp only [haccept, if_true]
      exact ⟨g0, g1, g2⟩
    · by_cases hw : c.acc
      · simp only [hw, Bool.or_true, if_true]
        exact ⟨g0, g1, g2⟩
      · have haccept : (decide ((scoreLayout (storeRead (allocGen grid c st.store st.bestIdx).1
            (allocGen grid c st.store st.bestIdx).2.1) ctx).total < st.best.total) || c.acc)
            = false := by
          simp [hacc, hw]
        simp only [haccept, Bool.false_eq_true, if_false]
        exact ⟨g0, h1, by omega⟩
  · simp only [hleg, Bool.not_false, if_true]
    exact ⟨g0, h1, by omega⟩

theorem storeLoop_inv (ctx : ScoreContext) (grid cooling : ℚ) (stream : ℕ → IterChoice)
    (X : List Block) (n : ℕ) :
    ∀ (i : ℕ) (st : StoreState),
      st.store[0]? = some X → 1 ≤ st.bestIdx → st.bestIdx < st.store.length →
      (storeLoop ctx grid cooling stream i n st).store[0]? = some X ∧
        1 ≤ (storeLoop ctx grid cooling stream i n st).bestIdx ∧
        (storeLoop ctx grid cooling stream i n st).bestIdx <
          (storeLoop ctx grid cooling stream i n st).store.length := by
  induction n with
  | zero => intro i st h0 h1 h2; exact ⟨h0, h1, h2⟩
  | succ m ih =>
    intro i st h0 h1 h2
    obtain ⟨s0, s1, s2⟩ := storeStep_inv ctx grid cooling st (stream i) X h0 h1 h2
    exact ih (i + 1) _ s0 s1 s2

/-- C9: over the array-identity-instrumented run, the caller's block
array (store entry 0) is unchanged when `optimizeHeuristic` finishes —
the run never mutates the initial plan's block list, block fields or
metadata — and the returned best array is never the caller's array: it is
a freshly allocated clone or candidate (index ≠ 0).  The `ScoreContext`
is only ever read (no operation of the model writes it). -/
theorem c9_no_mutation_fresh_result (stream : ℕ → IterChoice) (initial : Plan)
    (ctx : ScoreContext) (opts : OptimizeOptions) :
    (optimizeStoreFinal stream initial ctx opts).store[0]? = some initial.blocks ∧
      (optimizeStoreFinal stream initial ctx opts).bestIdx ≠ 0 := by
  have h := storeLoop_inv ctx (gridOf ctx opts) (coolingOf opts) stream initial.blocks
    (iterationsOf opts) 0
    { store := (storeAlloc [initial.blocks] (cloneBlocks initial.blocks)).1
      bestIdx := (storeAlloc [initial.blocks] (cloneBlocks initial.blocks)).2
      best := scoreLayout (cloneBlocks initial.blocks) ctx
      temperature := 1, history := [] } rfl (le_refl 1) (by simp [storeAlloc])
  obtain ⟨ha, hb, hc⟩ := h
  constructor
  · exact ha
  · show (storeLoop ctx (gridOf ctx opts) (coolingOf opts) stream 0 (iterationsOf opts)
      { store := (storeAlloc [initial.blocks] (cloneBlocks initial.blocks)).1
        bestIdx := (storeAlloc [initial.blocks] (cloneBlocks initial.blocks)).2
        best := scoreLayout (cloneBlocks initial.blocks) ctx
        temperature := 1, history := [] }).bestIdx ≠ 0
    omega

/-! ## C8: termination and exhaustion of the BFS nudge -/

theorem countP_mono_imp {α : Type} (l : List α) (p p' : α → Bool)
    (h : ∀ a, p' a = true → p a = true) : l.countP p' ≤ l.countP p := by
  induction l with
  | nil => exact le_refl _
  | cons a t ih =>
    rw [List.countP_cons, List.countP_cons]
    have hhead : (if p' a = true then 1 else 0) ≤ (if p a = true then 1 else 0) := by
      by_cases hp' : p' a = true
      · rw [if_pos hp', if_pos (h a hp')]
      · rw [if_neg hp']
        split <;> omega
    omega

theorem countP_strict_anti {α : Type} (l : List α) (p p' : α → Bool)
    (h : ∀ a, p' a = true → p a = true) (x : α) (hx : x ∈ l) (hpx : p x = true)
    (hp'x : p' x = false) : l.countP p' < l.countP p := by
  induction l with
  | nil => cases hx
  | cons a t ih =>
    rw [List.countP_cons, List.countP_cons]
    rcases List.mem_cons.mp hx with rfl | hmem
    · rw [hpx, hp'x]
      have := countP_mono_imp t p p' h
      simp only [if_true, Bool.false_eq_true, if_false]
      omega
    · have hhead : (if p' a = true then 1 else 0) ≤ (if p a = true then 1 else 0) := by
        by_cases hp' : p' a = true
        · rw [if_pos hp', if_pos (h a hp')]
        · rw [if_neg hp']
          split <;> omega
      have := ih hmem
      omega

theorem intRange_length (lo hi : ℤ) : (intRange lo hi).length = (hi - lo).toNat := by
  unfold intRange
  rw [List.length_map, List.length_range]

theorem keyList_length (start : RectM) (step : ℚ) (N : ℕ) :
    (keyList start step N).length = (2 * N + 1) * (2 * N + 1) := by
  unfold keyList
  rw [List.length_flatMap]
  have hlen : (intRange (-(N : ℤ)) ((N : ℤ) + 1)).length = 2 * N + 1 := by
    rw [intRange_length]
    omega
  have hcomp : (List.length ∘ fun i : ℤ => (intRange (-(N : ℤ)) ((N : ℤ) + 1)).map
      (fun j : ℤ => (start.x + (i : ℚ) * step, start.y + (j : ℚ) * step))) =
      fun _ : ℤ => 2 * N + 1 := by
    funext i
    simp only [Function.comp_apply, List.length_map]
    exact hlen
  rw [hcomp, List.map_const', List.sum_replicate, smul_eq_mul, hlen]

theorem key_mem_keyList (start : RectM) (step : ℚ) (N : ℕ) (i j : ℤ)
    (hi : i.natAbs ≤ N) (hj : j.natAbs ≤ N) :
    (start.x + (i : ℚ) * step, start.y + (j : ℚ) * step) ∈ keyList start step N := by
  unfold keyList
  rw [List.mem_flatMap]
  refine ⟨i, ?_, ?_⟩
  · rw [mem_intRange]
    omega
  · rw [List.mem_map]
    refine ⟨j, ?_, rfl⟩
    rw [mem_intRange]
    omega

theorem lattice_abs_bound (step maxRadius : ℚ) (hstep : 0 < step) (i j : ℤ)
    (h : |(i : ℚ) * step| + |(j : ℚ) * step| ≤ maxRadius) :
    i.natAbs ≤ (⌊max maxRadius 0 / step⌋).toNat ∧
      j.natAbs ≤ (⌊max maxRadius 0 / step⌋).toNat := by
  rw [abs_mul, abs_mul, abs_of_pos hstep] at h
  have hmax : maxRadius ≤ max maxRadius 0 := le_max_left _ _
  have hnn : ∀ (k : ℤ), (0 : ℚ) ≤ |(k : ℚ)| * step :=
    fun k => mul_nonneg (abs_nonneg _) hstep.le
  have key : ∀ (k : ℤ), |(k : ℚ)| * step ≤ max maxRadius 0 →
      k.natAbs ≤ (⌊max maxRadius 0 / step⌋).toNat := by
    intro k hk
    have h1 : (|(k : ℚ)|) ≤ max maxRadius 0 / step := (le_div_iff₀ hstep).mpr hk
    have h2 : ((k.natAbs : ℤ) : ℚ) ≤ max maxRadius 0 / step := by
      rw [Int.cast_natCast, Int.cast_natAbs, Int.cast_abs]
      exact h1
    have h3 : (k.natAbs : ℤ) ≤ ⌊max maxRadius 0 / step⌋ := Int.le_floor.mpr h2
    omega
  constructor
  · exact key i (by linarith [hnn j])
  · exact key j (by linarith [hnn i])

theorem shiftRect_zero (start : RectM) (step : ℚ) : shiftRect start step 0 0 = start := by
  simp [shiftRect]

theorem shiftRect_dist (start : RectM) (step : ℚ) (i j : ℤ) :
    |(shiftRect start step i j).x - start.x| + |(shiftRect start step i j).y - start.y| =
      |(i : ℚ) * step| + |(j : ℚ) * step| := by
  simp [shiftRect]

theorem nudgeNeighbors_shift (start : RectM) (step : ℚ) (i j : ℤ) :
    nudgeNeighbors (shiftRect start step i j) step =
      [shiftRect start step (i + 1) j, shiftRect start step (i - 1) j,
       shiftRect start step i (j + 1), shiftRect start step i (j - 1)] := by
  simp only [nudgeNeighbors, shiftRect, List.cons.injEq, RectM.mk.injEq, and_true, true_and]
  push_cast
  refine ⟨?_, ?_, ?_, ?_⟩ <;> ring

theorem nudgeFuel_succ_cons (start : RectM) (others : List RectM) (mask : GridIndex)
    (opts : LegalityOptions) (maxRadius : ℚ) (fuel : ℕ) (cur : RectM)
    (qt : List RectM) (visited : List (ℚ × ℚ)) :
    nudgeFuel start others mask opts maxRadius (fuel + 1) (cur :: qt) visited =
      if (cur.x, cur.y) ∈ visited then
        nudgeFuel start others mask opts maxRadius fuel qt visited
      else if (checkPlacementLegality cur others mask opts).ok then some cur
      else
        nudgeFuel start others mask opts maxRadius fuel
          (qt ++ (nudgeNeighbors cur mask.cellSize).filter
            (fun n => |n.x - start.x| + |n.y - start.y| ≤ maxRadius))
          ((cur.x, cur.y) :: visited) := rfl

/-- The fueled BFS of `nudgeToNearestLegal` reaches a result whenever the
fuel exceeds the measure `5 · (unvisited lattice keys) + queue length`,
and under exhaustion (no radius-respecting lattice position is legal) the
result is `start`. -/
theorem nudgeFuel_aux (start : RectM) (others : List RectM) (mask : GridIndex)
    (opts : LegalityOptions) (maxRadius : ℚ) (hstep : 0 < mask.cellSize) :
    ∀ (fuel : ℕ) (q : List RectM) (visited : List (ℚ × ℚ)),
      QInv start mask.cellSize maxRadius q →
      5 * unvisitedCount start mask.cellSize ((⌊max maxRadius 0 / mask.cellSize⌋).toNat) visited
          + q.length < fuel →
      ∃ r, nudgeFuel start others mask opts maxRadius fuel q visited = some r ∧
        ((∀ i j : ℤ, |(i : ℚ) * mask.cellSize| + |(j : ℚ) * mask.cellSize| ≤ maxRadius →
            (checkPlacementLegality (shiftRect start mask.cellSize i j) others mask opts).ok
              = false) → r = start) := by
  intro fuel
  induction fuel with
  | zero =>
    intro q visited _ hμ
    exact absurd hμ (by omega)
  | succ m ih =>
    intro q visited hq hμ
    cases q with
    | nil => exact ⟨start, rfl, fun _ => rfl⟩
    | cons cur qt =>
      rw [nudgeFuel_succ_cons]
      by_cases hv : (cur.x, cur.y) ∈ visited
      · rw [if_pos hv]
        apply ih qt visited (fun r hr => hq r (List.mem_cons_of_mem _ hr))
        rw [List.length_cons] at hμ
        omega
      · rw [if_neg hv]
        obtain ⟨i, j, hcur, hij⟩ := hq cur (List.mem_cons_self _ _)
        by_cases hok : (checkPlacementLegality cur others mask opts).ok = true
        · rw [if_pos hok]
          refine ⟨cur, rfl, fun hex => ?_⟩
          rcases hij with ⟨hi0, hj0⟩ | hrad
          · rw [hcur, hi0, hj0, shiftRect_zero]
          · exfalso
            have hfalse := hex i j hrad
            rw [← hcur] at hfalse
            rw [hok] at hfalse
            exact absurd hfalse (by decide)
        · rw [if_neg hok]
          have hNi : i.natAbs ≤ (⌊max maxRadius 0 / mask.cellSize⌋).toNat ∧
              j.natAbs ≤ (⌊max maxRadius 0 / mask.cellSize⌋).toNat := by
            rcases hij with ⟨hi0, hj0⟩ | hrad
            · subst hi0
              subst hj0
              simp
            · exact lattice_abs_bound _ _ hstep i j hrad
          have hkeymem : (cur.x, cur.y) ∈ keyList start mask.cellSize
              ((⌊max maxRadius 0 / mask.cellSize⌋).toNat) := by
            have hx : cur.x = start.x + (i : ℚ) * mask.cellSize := by
              rw [hcur]
              rfl
            have hy : cur.y = start.y + (j : ℚ) * mask.cellSize := by
              rw [hcur]
              rfl
            rw [hx, hy]
            exact key_mem_keyList _ _ _ _ _ hNi.1 hNi.2
          have hUdec : unvisitedCount start mask.cellSize
              ((⌊max maxRadius 0 / mask.cellSize⌋).toNat) ((cur.x, cur.y) :: visited) <
              unvisitedCount start mask.cellSize
                ((⌊max maxRadius 0 / mask.cellSize⌋).toNat) visited := by
            unfold unvisitedCount
            apply countP_strict_anti _ _ _ ?_ (cur.x, cur.y) hkeymem ?_ ?_
            · intro a ha
              simp only [decide_eq_true_eq] at ha ⊢
              intro hmem
              exact ha (List.mem_cons_of_mem _ hmem)
            · simp [hv]
            · simp
          have hqinv' : QInv start mask.cellSize maxRadius
              (qt ++ (nudgeNeighbors cur mask.cellSize).filter
                (fun n => |n.x - start.x| + |n.y - start.y| ≤ maxRadius)) := by
            intro r hr
            rcases List.mem_append.mp hr with h1 | h2
            · exact hq r (List.mem_cons_of_mem _ h1)
            · obtain ⟨hmem, hcond⟩ := List.mem_filter.mp h2
              have hcond' : |r.x - start.x| + |r.y - start.y| ≤ maxRadius :=
                of_decide_eq_true hcond
              rw [hcur, nudgeNeighbors_shift] at hmem
              simp only [List.mem_cons, List.not_mem_nil, or_false] at hmem
              rcases hmem with rfl | rfl | rfl | rfl
              · refine ⟨i + 1, j, rfl, Or.inr ?_⟩
                rw [shiftRect_dist] at hcond'
                exact hcond'
              · refine ⟨i - 1, j, rfl, Or.inr ?_⟩
                rw [shiftRect_dist] at hcond'
                exact hcond'
              · refine ⟨i, j + 1, rfl, Or.inr ?_⟩
                rw [shiftRect_dist] at hcond'
                exact hcond'
              · refine ⟨i, j - 1, rfl, Or.inr ?_⟩
                rw [shiftRect_dist] at hcond'
                exact hcond'
          apply ih _ _ hqinv'
          have hpl : ((nudgeNeighbors cur mask.cellSize).filter
              (fun n => |n.x - start.x| + |n.y - start.y| ≤ maxRadius)).length ≤ 4 := by
            have hfil := List.length_filter_le
              (fun n : RectM => decide (|n.x - start.x| + |n.y - start.y| ≤ maxRadius))
              (nudgeNeighbors cur mask.cellSize)
            have hnb : (nudgeNeighbors cur mask.cellSize).length = 4 := rfl
            omega
          rw [List.length_append]
          rw [List.length_cons] at hμ
          omega

/-- C8: `nudgeToNearestLegal` terminates on every input — the computed
fuel `nudgeFuelBound` always suffices for the fueled BFS to reach a
result (the visited set and the Manhattan-radius pruning exhaust the
frontier) — and when no lattice position reachable by `cellSize` steps
within Manhattan distance `maxRadius` of `start` passes
`checkPlacementLegality`, it returns the `start` rect unchanged.
The hypothesis `0 < cellSize` holds for every grid built by the
constructor, which clamps the cell size to at least 0.05. -/
theorem c8_nudge_terminates_and_exhausts (start : RectM) (others : List RectM)
    (mask : GridIndex) (opts : LegalityOptions) (maxRadius : ℚ)
    (hstep : 0 < mask.cellSize) :
    (∃ r, nudgeFuel start others mask opts maxRadius
        (nudgeFuelBound mask maxRadius) [start] [] = some r) ∧
      ((∀ i j : ℤ, |(i : ℚ) * mask.cellSize| + |(j : ℚ) * mask.cellSize| ≤ maxRadius →
          (checkPlacementLegality (shiftRect start mask.cellSize i j) others mask opts).ok
            = false) →
        nudgeToNearestLegal start others mask opts maxRadius = start) := by
  have hq0 : QInv start mask.cellSize maxRadius [start] := by
    intro r hr
    rw [List.mem_singleton] at hr
    subst hr
    exact ⟨0, 0, (shiftRect_zero _ _).symm, Or.inl ⟨rfl, rfl⟩⟩
  have hμ0 : 5 * unvisitedCount start mask.cellSize
      ((⌊max maxRadius 0 / mask.cellSize⌋).toNat) [] + ([start] : List RectM).length <
      nudgeFuelBound mask maxRadius := by
    have h1 : unvisitedCount start mask.cellSize
        ((⌊max maxRadius 0 / mask.cellSize⌋).toNat) [] ≤
        (keyList start mask.cellSize ((⌊max maxRadius 0 / mask.cellSize⌋).toNat)).length :=
      List.countP_le_length _
    rw [keyList_length] at h1
    have hsq : (2 * (⌊max maxRadius 0 / mask.cellSize⌋).toNat + 1) ^ 2 =
        (2 * (⌊max maxRadius 0 / mask.cellSize⌋).toNat + 1) *
          (2 * (⌊max maxRadius 0 / mask.cellSize⌋).toNat + 1) := by
      ring
    show 5 * unvisitedCount start mask.cellSize
        ((⌊max maxRadius 0 / mask.cellSize⌋).toNat) [] + 1 <
      5 * (2 * (⌊max maxRadius 0 / mask.cellSize⌋).toNat + 1) ^ 2 + 2
    rw [hsq]
    omega
  obtain ⟨r, hr, himp⟩ := nudgeFuel_aux start others mask opts maxRadius hstep
    (nudgeFuelBound mask maxRadius) [start] [] hq0 hμ0
  refine ⟨⟨r, hr⟩, fun hex => ?_⟩
  unfold nudgeToNearestLegal
  rw [hr, himp hex]
  rfl

/-- Witness for C8: a start rect wider than the whole site (so every
reachable position fails the site-bounds check) with a concrete grid. -/
theorem c8_witness :
    (0 : ℚ) < (mkGridIndex 1 5 5).cellSize ∧
      nudgeToNearestLegal ⟨0, 0, 3, 3⟩ [] (mkGridIndex 1 5 5) ⟨0, ⟨0, 0, 1, 1⟩⟩ 2 =
        ⟨0, 0, 3, 3⟩ :=
  ⟨by with_unfolding_all decide,
    (c8_nudge_terminates_and_exhausts ⟨0, 0, 3, 3⟩ [] (mkGridIndex 1 5 5) ⟨0, ⟨0, 0, 1, 1⟩⟩ 2
        (by with_unfolding_all decide)).2
      (fun i j _ => by
        have hins : inside (shiftRect ⟨0, 0, 3, 3⟩ (mkGridIndex 1 5 5).cellSize i j)
            ⟨0, 0, 1, 1⟩ = false := by
          cases hb : inside (shiftRect ⟨0, 0, 3, 3⟩ (mkGridIndex 1 5 5).cellSize i j)
            ⟨0, 0, 1, 1⟩ with
          | false => rfl
          | true =>
            exfalso
            simp only [inside, shiftRect, Bool.and_eq_true, decide_eq_true_eq] at hb
            obtain ⟨⟨⟨h1, _⟩, h3⟩, _⟩ := hb
            linarith
        simp [checkPlacementLegality, hins])⟩
